import Mathlib

/-!
A shallow embedding of the workspace-scoped file-system core of
mdx-desktop (`packages/app/src-tauri/src/fs` and `src/state`), together
with proofs about its behaviour.

Paths are modelled at the level of Rust `Path` components on Unix: an
absolute path is the list of its normal components (everything after the
leading `RootDir`).  Canonicalization (`std::fs::canonicalize`) is
modelled by an oracle belonging to the file-system state, and the file
tree itself by a finite association list from component paths to entries.
-/

/-- An absolute path, as the list of its normal components
(Rust `Path::components` after the leading `RootDir`). -/
abbrev AbsPath := List String

/-- Component-wise path-prefix test, modelling Rust `Path::starts_with`
(which compares whole components, not string bytes). -/
def isPref : List String → List String → Bool
  | [], _ => true
  | _ :: _, [] => false
  | a :: as, b :: bs => a == b && isPref as bs

/-- Does `pat` occur at the head of `hay` (exact character match)? -/
def charsStartWith : List Char → List Char → Bool
  | [], _ => true
  | _ :: _, [] => false
  | p :: ps, h :: hs => p == h && charsStartWith ps hs

/-- Does `pat` occur anywhere in `hay` as a contiguous run? -/
def charsContain (pat : List Char) : List Char → Bool
  | [] => charsStartWith pat []
  | h :: t => charsStartWith pat (h :: t) || charsContain pat t

/-- Model of Rust `str::contains` with a string pattern: a literal
substring test on the character sequence. -/
def strContains (s pat : String) : Bool :=
  charsContain pat.toList s.toList

/-- Split a character list on the separator character. -/
def splitSlashAux : List Char → List Char → List String
  | [], acc => [String.mk acc.reverse]
  | c :: rest, acc =>
    if c = '/' then String.mk acc.reverse :: splitSlashAux rest []
    else splitSlashAux rest (c :: acc)

/-- Parse a Unix path string into its components, as Rust
`Path::components` does for a path joined onto an absolute base: split on
the separator, drop empty segments and `.` segments (both normalized away
by Rust); `..` segments are kept as components. -/
def targetComponents (t : String) : List String :=
  (splitSlashAux t.toList []).filter (fun s => s != "" && s != ".")

/-- Model of Rust `Path::is_absolute` on Unix: the string has a root,
i.e. begins with the separator. -/
def targetIsAbsolute (t : String) : Bool :=
  match t.toList with
  | '/' :: _ => true
  | _ => false

/-- Model of Rust `Path::parent` on an absolute path: drop the last
component; the file-system root has no parent. -/
def parentAbs : AbsPath → Option AbsPath
  | [] => none
  | l => some l.dropLast

/-- Model of Rust `Path::file_name` on an absolute path: the last
component, if any. -/
def fileName : AbsPath → Option String
  | [] => none
  | l => some (l.getLastD "")

/-- Model of Rust `Path::with_file_name`: replace the final component. -/
def withFileName (p : AbsPath) (name : String) : AbsPath :=
  p.dropLast ++ [name]

/-- The application error type of `src/error.rs` (`AppError`); the
`String` payloads carry the formatted messages. -/
inductive AppError where
  | PermissionDenied (msg : String)
  | InvalidPath (msg : String)
  | FileNotFound (msg : String)
  | PathTraversal (msg : String)
  | IoError (msg : String)
  | FileTooLarge (msg : String)
  deriving DecidableEq

/-- Is the error a `PathTraversal`? -/
def AppError.isPathTraversal : AppError → Bool
  | .PathTraversal _ => true
  | _ => false

/-- Is the error an `InvalidPath`? -/
def AppError.isInvalidPath : AppError → Bool
  | .InvalidPath _ => true
  | _ => false

/-- The canonicalization oracle of the ambient file system: `canon p` is
the canonical (absolute, symlink-free) form of `p` when `p` exists and is
resolvable, and `none` otherwise — modelling `std::fs::canonicalize`. -/
structure Fsys where
  canon : AbsPath → Option AbsPath

/-- The full path `validate_path` builds from the canonical base and the
target: the target itself when absolute, otherwise the target joined onto
the canonical base (Rust `PathBuf::join`). -/
def fullPathOf (base_canonical : AbsPath) (target : String) : AbsPath :=
  if targetIsAbsolute target then targetComponents target
  else base_canonical ++ targetComponents target

/-- Shallow embedding of `validate_path` from `src/fs/validation.rs`:
reject targets containing `..`; canonicalize the base; join relative
targets onto the canonical base; canonicalize the result and check it is
component-prefixed by the canonical base, falling back to the parent
directory when the full path does not exist. -/
def validate_path (fs : Fsys) (base_dir : AbsPath) (target : String) :
    Except AppError AbsPath :=
  if strContains target ".." then
    .error (.PathTraversal ("Path contains .. which is not allowed: " ++ target))
  else
    match fs.canon base_dir with
    | none => .error (.InvalidPath "Invalid base directory")
    | some base_canonical =>
      let full_path := fullPathOf base_canonical target
      match fs.canon full_path with
      | some final_path =>
        if isPref base_canonical final_path then .ok final_path
        else .error (.PathTraversal ("Path attempts to escape base directory: " ++ target))
      | none =>
        match parentAbs full_path with
        | some parent =>
          match fs.canon parent with
          | none => .error (.InvalidPath "Invalid parent path")
          | some parent_canonical =>
            if isPref base_canonical parent_canonical then .ok full_path
            else .error (.PathTraversal ("Path attempts to escape base directory: " ++ target))
        | none => .error (.InvalidPath ("Path has no parent: " ++ target))

/-- C1: for every file system, every base directory and every target
string that contains the two-character sequence `..` anywhere as a
literal substring, `validate_path` returns a `PathTraversal` error.  The
statement quantifies over an arbitrary canonicalization oracle — in
particular one that always fails — so the rejection is decided before any
canonicalization or file-system access, and independently of the base. -/
theorem validate_path_rejects_dotdot (fs : Fsys) (base_dir : AbsPath)
    (target : String) (h : strContains target ".." = true) :
    validate_path fs base_dir target =
      .error (.PathTraversal ("Path contains .. which is not allowed: " ++ target)) := by
  unfold validate_path
  simp [h]

theorem validate_path_rejects_dotdot_witness :
    strContains "../etc/passwd" ".." = true ∧
      validate_path ⟨fun _ => none⟩ ["home", "user"] "../etc/passwd" =
        .error (.PathTraversal
          ("Path contains .. which is not allowed: " ++ "../etc/passwd")) :=
  ⟨by decide,
    validate_path_rejects_dotdot ⟨fun _ => none⟩ ["home", "user"] "../etc/passwd" (by decide)⟩

/-- `isPref` is reflexive. -/
theorem isPref_self (a : List String) : isPref a a = true := by
  induction a with
  | nil => rfl
  | cons x xs ih => simp [isPref, ih]

/-- A component prefix of `b` is also a component prefix of `b ++ l`. -/
theorem isPref_append_extend (a : List String) :
    ∀ b l, isPref a b = true → isPref a (b ++ l) = true := by
  induction a with
  | nil => intro b l _; rfl
  | cons x xs ih =>
    intro b l h
    cases b with
    | nil => simp [isPref] at h
    | cons y ys =>
      simp only [isPref, Bool.and_eq_true] at h ⊢
      exact ⟨h.1, ih ys l h.2⟩

/-- Every list is a component prefix of itself extended by anything. -/
theorem isPref_append_self (a l : List String) : isPref a (a ++ l) = true :=
  isPref_append_extend a a l (isPref_self a)

/-- The canonical location an absolute path refers to: its own canonical
form when it exists, and otherwise the canonical form of its parent
extended by the leaf name — the place a create/write at this path would
materialize.  `none` when neither the path nor its parent resolves. -/
def canonicalLocation (fs : Fsys) (p : AbsPath) : Option AbsPath :=
  match fs.canon p with
  | some c => some c
  | none =>
    match parentAbs p with
    | none => none
    | some parent =>
      match fs.canon parent with
      | some pc => some (pc ++ [p.getLastD ""])
      | none => none

/-- The target, taken as an absolute path, lies outside the canonical
workspace root: either the base itself does not resolve, or the target is
unlocatable, or its canonical location is not component-prefixed by the
canonical root. -/
def outsideAbs (fs : Fsys) (base_dir : AbsPath) (target : String) : Bool :=
  match fs.canon base_dir with
  | none => true
  | some base_canonical =>
    match canonicalLocation fs (targetComponents target) with
    | none => true
    | some c => !(isPref base_canonical c)

/-- A file system with a symbolic link `/tmp/link` pointing at the
workspace root `/root`. -/
def symlinkFs : Fsys :=
  ⟨fun p =>
    if p = ["root"] then some ["root"]
    else if p = ["tmp", "link"] then some ["root"]
    else if p = ["tmp"] then some ["tmp"]
    else if p = [] then some []
    else none⟩

/-- C2 counterexample: with base `/root` and the absolute, not yet
existing target `/tmp/link/newfile.txt` whose parent is a symlink into
the root, `validate_path` succeeds but the returned path is not a
component-wise descendant of the canonical root, refuting the claim that
every success returns a descendant of the canonical root. -/
theorem validate_path_descendant_counterexample :
    validate_path symlinkFs ["root"] "/tmp/link/newfile.txt" =
        .ok ["tmp", "link", "newfile.txt"] ∧
      symlinkFs.canon ["root"] = some ["root"] ∧
      isPref ["root"] ["tmp", "link", "newfile.txt"] = false := by
  refine ⟨?_, rfl, rfl⟩
  rfl


/-- Part A of the amended C2: when `validate_path` succeeds and the
target was relative — or the full path itself canonicalized — the
returned path is a component-wise descendant of (or equal to) the
canonical root. -/
theorem validate_path_ok_descendant (fs : Fsys) (base_dir : AbsPath)
    (target : String) (r bc : AbsPath)
    (hok : validate_path fs base_dir target = .ok r)
    (hbc : fs.canon base_dir = some bc)
    (hcase : targetIsAbsolute target = false ∨
      ∃ c, fs.canon (fullPathOf bc target) = some c) :
    isPref bc r = true := by
  by_cases hdd : strContains target ".." = true
  · simp [validate_path, hdd] at hok
  · cases hful : fs.canon (fullPathOf bc target) with
    | some final_path =>
      simp only [validate_path, hdd, hbc, hful, Bool.false_eq_true, if_false] at hok
      by_cases hp : isPref bc final_path = true
      · simp only [hp, if_true] at hok
        cases hok
        exact hp
      · simp [hp] at hok
    | none =>
      rcases hcase with habs | ⟨c, hc⟩
      · simp only [validate_path, hdd, hbc, hful, Bool.false_eq_true, if_false] at hok
        cases hpar : parentAbs (fullPathOf bc target) with
        | none => simp [hpar] at hok
        | some parent =>
          simp only [hpar] at hok
          cases hpc : fs.canon parent with
          | none => simp [hpc] at hok
          | some parent_canonical =>
            simp only [hpc] at hok
            by_cases hp : isPref bc parent_canonical = true
            · simp only [hp, if_true, Except.ok.injEq] at hok
              rw [← hok]
              simp only [fullPathOf, habs, Bool.false_eq_true, if_false]
              exact isPref_append_self bc (targetComponents target)
            · simp [hp] at hok
      · rw [hful] at hc
        exact absurd hc (by simp)

/-- Part B of the amended C2: an absolute target whose canonical location
lies outside the canonical workspace root is rejected with a traversal or
invalid-path error. -/
theorem validate_path_abs_outside_rejected (fs : Fsys) (base_dir : AbsPath)
    (target : String) (habs : targetIsAbsolute target = true)
    (hout : outsideAbs fs base_dir target = true) :
    ∃ e, validate_path fs base_dir target = .error e ∧
      (e.isPathTraversal || e.isInvalidPath) = true := by
  by_cases hdd : strContains target ".." = true
  · exact ⟨.PathTraversal ("Path contains .. which is not allowed: " ++ target),
      by simp [validate_path, hdd], rfl⟩
  · cases hbc : fs.canon base_dir with
    | none =>
      exact ⟨.InvalidPath "Invalid base directory",
        by simp [validate_path, hdd, hbc], rfl⟩
    | some base_canonical =>
      have hfull : fullPathOf base_canonical target = targetComponents target := by
        simp [fullPathOf, habs]
      cases hcan : fs.canon (targetComponents target) with
      | some final_path =>
        have hp : isPref base_canonical final_path = false := by
          simp only [outsideAbs, hbc, canonicalLocation, hcan] at hout
          simpa using hout
        exact ⟨.PathTraversal ("Path attempts to escape base directory: " ++ target),
          by simp [validate_path, hdd, hbc, hfull, hcan, hp], rfl⟩
      | none =>
        cases hpar : parentAbs (targetComponents target) with
        | none =>
          exact ⟨.InvalidPath ("Path has no parent: " ++ target),
            by simp [validate_path, hdd, hbc, hfull, hcan, hpar], rfl⟩
        | some parent =>
          cases hpc : fs.canon parent with
          | none =>
            exact ⟨.InvalidPath "Invalid parent path",
              by simp [validate_path, hdd, hbc, hfull, hcan, hpar, hpc], rfl⟩
          | some parent_canonical =>
            have hout' : isPref base_canonical
                (parent_canonical ++ [(targetComponents target).getLastD ""]) = false := by
              simp only [outsideAbs, hbc, canonicalLocation, hcan, hpar, hpc] at hout
              simpa using hout
            have hp : isPref base_canonical parent_canonical = false := by
              by_cases h : isPref base_canonical parent_canonical = true
              · have := isPref_append_extend base_canonical parent_canonical
                  [(targetComponents target).getLastD ""] h
                rw [hout'] at this
                exact absurd this (by simp)
              · simpa using h
            exact ⟨.PathTraversal ("Path attempts to escape base directory: " ++ target),
              by simp [validate_path, hdd, hbc, hfull, hcan, hpar, hpc, hp], rfl⟩

/-- C2 (amended): whenever `validate_path` succeeds on a relative target
(or the full path itself canonicalized), the returned path is a
component-wise descendant of — or equal to — the canonical root; and
every absolute target whose canonical location lies outside the workspace
root is rejected with a traversal or invalid-path error.  The amendment
excludes successes on absolute targets whose leaf does not yet exist,
whose returned (unresolved) path need not be a descendant — see the
counterexample. -/
theorem validate_path_boundary_amended :
    (∀ fs base_dir target r bc,
        validate_path fs base_dir target = .ok r →
        fs.canon base_dir = some bc →
        (targetIsAbsolute target = false ∨
          ∃ c, fs.canon (fullPathOf bc target) = some c) →
        isPref bc r = true) ∧
    (∀ fs base_dir target,
        targetIsAbsolute target = true →
        outsideAbs fs base_dir target = true →
        ∃ e, validate_path fs base_dir target = .error e ∧
          (e.isPathTraversal || e.isInvalidPath) = true) :=
  ⟨validate_path_ok_descendant, validate_path_abs_outside_rejected⟩

/-- A small concrete workspace file system: a canonical root `/ws`, an
existing file `/ws/notes/a.md`, and an existing file `/outside/evil.txt`
outside the workspace. -/
def wsFs : Fsys :=
  ⟨fun p =>
    if p = ["ws"] then some ["ws"]
    else if p = ["ws", "notes", "a.md"] then some ["ws", "notes", "a.md"]
    else if p = ["outside", "evil.txt"] then some ["outside", "evil.txt"]
    else none⟩

theorem validate_path_boundary_amended_witness :
    isPref ["ws"] ["ws", "notes", "a.md"] = true ∧
      ∃ e, validate_path wsFs ["ws"] "/outside/evil.txt" = .error e ∧
        (e.isPathTraversal || e.isInvalidPath) = true :=
  ⟨validate_path_boundary_amended.1 wsFs ["ws"] "notes/a.md"
      ["ws", "notes", "a.md"] ["ws"] rfl rfl (Or.inl (by decide)),
    validate_path_boundary_amended.2 wsFs ["ws"] "/outside/evil.txt"
      (by decide) (by decide)⟩

/-- One entry of the file tree: a text file with its content, or a
directory. -/
inductive Entry where
  | file (content : String)
  | dir
  deriving DecidableEq

/-- The file tree: a finite association list from absolute component
paths to entries. -/
abbrev FsState := List (AbsPath × Entry)

/-- Look up the entry at a path (first match wins). -/
def getEntry (fs : FsState) (p : AbsPath) : Option Entry :=
  match fs with
  | [] => none
  | (k, v) :: rest => if k = p then some v else getEntry rest p

/-- Insert or overwrite the entry at a path. -/
def setEntry (fs : FsState) (p : AbsPath) (e : Entry) : FsState :=
  (p, e) :: fs.filter (fun kv => kv.1 != p)

/-- Remove the entry at a path (other paths are untouched). -/
def removeEntry (fs : FsState) (p : AbsPath) : FsState :=
  fs.filter (fun kv => kv.1 != p)

/-- Unfolding lemma for `getEntry` on a cons cell. -/
theorem getEntry_cons (k : AbsPath) (v : Entry) (rest : FsState) (q : AbsPath) :
    getEntry ((k, v) :: rest) q = if k = q then some v else getEntry rest q := rfl

/-- Removing the entries keyed `p` does not change lookups at `q ≠ p`. -/
theorem getEntry_removeEntry_ne (fs : FsState) (p q : AbsPath) (h : q ≠ p) :
    getEntry (removeEntry fs p) q = getEntry fs q := by
  induction fs with
  | nil => rfl
  | cons kv rest ih =>
    obtain ⟨k, v⟩ := kv
    unfold removeEntry at ih ⊢
    rw [List.filter_cons]
    by_cases hk : k = p
    · have hcond : ((k, v).1 != p) = false := by simp [hk]
      rw [hcond, if_neg Bool.false_ne_true, ih, getEntry_cons,
        if_neg (by rw [hk]; exact fun hpq => h hpq.symm)]
    · have hcond : ((k, v).1 != p) = true := by simp [hk]
      rw [hcond, if_pos rfl, getEntry_cons, getEntry_cons]
      by_cases hq : k = q
      · rw [if_pos hq, if_pos hq]
      · rw [if_neg hq, if_neg hq, ih]

/-- After removal the removed path has no entry. -/
theorem getEntry_removeEntry_self (fs : FsState) (p : AbsPath) :
    getEntry (removeEntry fs p) p = none := by
  induction fs with
  | nil => rfl
  | cons kv rest ih =>
    obtain ⟨k, v⟩ := kv
    unfold removeEntry at ih ⊢
    rw [List.filter_cons]
    by_cases hk : k = p
    · have hcond : ((k, v).1 != p) = false := by simp [hk]
      rw [hcond, if_neg Bool.false_ne_true, ih]
    · have hcond : ((k, v).1 != p) = true := by simp [hk]
      rw [hcond, if_pos rfl, getEntry_cons, if_neg hk, ih]

/-- Setting an entry at `p` makes it visible at `p`. -/
theorem getEntry_setEntry_self (fs : FsState) (p : AbsPath) (e : Entry) :
    getEntry (setEntry fs p e) p = some e := by
  unfold setEntry
  rw [getEntry_cons, if_pos rfl]

/-- Setting an entry at `p` does not change lookups at `q ≠ p`. -/
theorem getEntry_setEntry_ne (fs : FsState) (p q : AbsPath) (e : Entry)
    (h : q ≠ p) : getEntry (setEntry fs p e) q = getEntry fs q := by
  unfold setEntry
  rw [getEntry_cons, if_neg (fun hq => h hq.symm)]
  exact getEntry_removeEntry_ne fs p q h

/-- Maximum file size that can be read (4 GiB), from `operations.rs`. -/
def MAX_FILE_SIZE : Nat := 4 * 1024 * 1024 * 1024

/-- Shallow embedding of `read_file_content` from `src/fs/operations.rs`:
check the size ceiling from the metadata first, then read the contents as
text.  A missing path is a not-found error; reading a directory as text
fails with an io error. -/
def read_file_content (fs : FsState) (path : AbsPath) : Except AppError String :=
  match getEntry fs path with
  | none => .error (.FileNotFound "No such file or directory")
  | some .dir => .error (.IoError "Is a directory")
  | some (.file content) =>
    if content.length > MAX_FILE_SIZE then
      .error (.FileTooLarge "File size exceeds maximum")
    else .ok content

/-- Model of `tokio::fs::File::create` (`std::fs::File::create`): creates
the file when missing and truncates it to empty when it already exists;
fails when the parent directory does not exist or when the path names an
existing directory.  It does **not** have exclusive-create semantics. -/
def fileCreate (fs : FsState) (path : AbsPath) : Except AppError FsState :=
  match parentAbs path with
  | none => .error (.IoError "cannot create the file system root")
  | some parent =>
    match getEntry fs parent with
    | some .dir =>
      match getEntry fs path with
      | some .dir => .error (.IoError "Is a directory")
      | _ => .ok (setEntry fs path (.file ""))
    | _ => .error (.FileNotFound "No such file or directory")

/-- Shallow embedding of `create_file` from `src/fs/operations.rs`: calls
`File::create` and syncs.  Note the source's own doc comment claims the
call fails when the file already exists, but `File::create` truncates in
that case. -/
def create_file (fs : FsState) (path : AbsPath) : Except AppError FsState :=
  fileCreate fs path

/-- Shallow embedding of `create_folder` from `src/fs/operations.rs`
(`tokio::fs::create_dir`): fails when the path already exists or the
parent is missing. -/
def create_folder (fs : FsState) (path : AbsPath) : Except AppError FsState :=
  match parentAbs path with
  | none => .error (.IoError "cannot create the file system root")
  | some parent =>
    match getEntry fs parent with
    | some .dir =>
      match getEntry fs path with
      | some _ => .error (.IoError "File exists")
      | none => .ok (setEntry fs path .dir)
    | _ => .error (.FileNotFound "No such file or directory")

/-- Shallow embedding of `delete_path` from `src/fs/operations.rs`:
remove a file, or remove a directory together with all of its contents
recursively. -/
def delete_path (fs : FsState) (path : AbsPath) : Except AppError FsState :=
  match getEntry fs path with
  | none => .error (.FileNotFound "No such file or directory")
  | some (.file _) => .ok (removeEntry fs path)
  | some .dir => .ok (fs.filter (fun kv => !(isPref path kv.1)))

/-- Shallow embedding of `rename_path` from `src/fs/operations.rs`,
modelling the successful-rename semantics (the cross-device copy+delete
fallback produces the same final tree at this level of abstraction): move
the whole subtree rooted at the old path onto the new path. -/
def rename_path (fs : FsState) (old_path new_path : AbsPath) :
    Except AppError FsState :=
  match getEntry fs old_path with
  | none => .error (.FileNotFound "No such file or directory")
  | some _ =>
    .ok (fs.map (fun kv =>
      if isPref old_path kv.1 then (new_path ++ kv.1.drop old_path.length, kv.2)
      else kv))

/-- An injected io-level error, with the kinds distinguished by
`impl From of std io Error for AppError` in `src/error.rs`. -/
inductive IoErr where
  | notFound (msg : String)
  | permissionDenied (msg : String)
  | invalidInput (msg : String)
  | other (msg : String)
  deriving DecidableEq

/-- The error-kind mapping of the `From` impl in `src/error.rs`. -/
def IoErr.toAppError : IoErr → AppError
  | .notFound m => .FileNotFound m
  | .permissionDenied m => .PermissionDenied m
  | .invalidInput m => .InvalidPath m
  | .other m => .IoError m

/-- Injected faults for one `write_file_atomic` call: whether the final
rename fails (and with what io error), and whether the best-effort
temp-file cleanup itself fails. -/
structure IoEnv where
  renameErr : Option IoErr
  removeFails : Bool

/-- Shallow embedding of `write_file_atomic` from `src/fs/operations.rs`:
write the content to a sibling `<name>.tmp` file, fsync it, then rename
it over the target in one step; when the rename fails, delete the temp
file best-effort (a cleanup failure is discarded) and propagate the
rename error.  Returns the call's result together with the file system it
leaves behind. -/
def write_file_atomic (env : IoEnv) (fs : FsState) (path : AbsPath)
    (content : String) : Except AppError Unit × FsState :=
  match fileName path with
  | none => (.error (.InvalidPath "Invalid file name"), fs)
  | some file_name =>
    let temp_path := withFileName path (file_name ++ ".tmp")
    match fileCreate fs temp_path with
    | .error e => (.error e, fs)
    | .ok fs1 =>
      let fs2 := setEntry fs1 temp_path (.file content)
      match env.renameErr with
      | none => (.ok (), setEntry (removeEntry fs2 temp_path) path (.file content))
      | some e =>
        let fs3 := if env.removeFails then fs2 else removeEntry fs2 temp_path
        (.error e.toAppError, fs3)

/-- A concrete file tree: the root, a workspace directory `/ws`, and an
existing file `/ws/a.txt` with content "hello". -/
def opFs : FsState :=
  [([], .dir), (["ws"], .dir), (["ws", "a.txt"], .file "hello")]

/-- C3: `create_file` on a path that already exists does **not** fail:
`File::create` succeeds and truncates the existing file to empty.  This
contradicts the claim (and the source's own doc comment, which says
creation fails when the file already exists): the operation silently
destroys the previous content "hello". -/
theorem create_file_truncates_existing :
    ∃ fs', create_file opFs ["ws", "a.txt"] = .ok fs' ∧
      getEntry fs' ["ws", "a.txt"] = some (.file "") ∧
      getEntry opFs ["ws", "a.txt"] = some (.file "hello") :=
  ⟨setEntry opFs ["ws", "a.txt"] (.file ""), rfl, rfl, rfl⟩

/-- Appending a nonempty suffix to the file name changes the path. -/
theorem withFileName_tmp_ne (path : AbsPath) (file_name : String)
    (hfn : fileName path = some file_name) :
    withFileName path (file_name ++ ".tmp") ≠ path := by
  intro heq
  cases path with
  | nil => simp [fileName] at hfn
  | cons a as =>
    have hlast : (withFileName (a :: as) (file_name ++ ".tmp")).getLast? =
        some (file_name ++ ".tmp") := by
      unfold withFileName
      exact List.getLast?_concat _
    rw [heq] at hlast
    have hname : file_name = (a :: as).getLastD "" := by
      simp only [fileName] at hfn
      exact (Option.some.injEq _ _ ▸ hfn).symm
    rw [List.getLastD_eq_getLast?] at hname
    cases hx : (a :: as).getLast? with
    | none => simp [List.getLast?_eq_none_iff] at hx
    | some x =>
      rw [hx] at hlast hname
      simp only [Option.getD_some] at hname
      have hxeq0 : x = file_name ++ ".tmp" := by simpa using hlast
      have hxeq : file_name ++ ".tmp" = x := hxeq0.symm
      rw [← hname] at hxeq
      have hlen := congrArg String.length hxeq
      rw [String.length_append] at hlen
      have h4 : ".tmp".length = 4 := rfl
      rw [h4] at hlen
      omega

/-- A successful `File::create` writes exactly an empty file at the
path. -/
theorem fileCreate_ok (fs fs' : FsState) (p : AbsPath)
    (h : fileCreate fs p = .ok fs') : fs' = setEntry fs p (.file "") := by
  unfold fileCreate at h
  split at h
  · exact absurd h (by simp)
  · split at h
    · split at h
      · exact absurd h (by simp)
      · simpa using h.symm
    · exact absurd h (by simp)

/-- C4: for every atomic write whose final rename step fails, the call
propagates the rename error unchanged (a cleanup failure does not replace
it), the sibling temp file is deleted whenever the best-effort cleanup
succeeds, and the target's prior content is untouched; moreover, under
every injected fault pattern the target ends either fully old or fully
new. -/
theorem write_file_atomic_rename_fails (env : IoEnv) (fs fs1 : FsState)
    (path : AbsPath) (content : String) (file_name : String) (e : IoErr)
    (hfn : fileName path = some file_name)
    (hcr : fileCreate fs (withFileName path (file_name ++ ".tmp")) = .ok fs1)
    (hre : env.renameErr = some e) :
    (write_file_atomic env fs path content).1 = .error e.toAppError ∧
      getEntry (write_file_atomic env fs path content).2 path = getEntry fs path ∧
      (env.removeFails = false →
        getEntry (write_file_atomic env fs path content).2
          (withFileName path (file_name ++ ".tmp")) = none) ∧
      (∀ env' : IoEnv,
        getEntry (write_file_atomic env' fs path content).2 path =
            getEntry fs path ∨
          getEntry (write_file_atomic env' fs path content).2 path =
            some (.file content)) := by
  have hne : withFileName path (file_name ++ ".tmp") ≠ path :=
    withFileName_tmp_ne path file_name hfn
  have hfs1 : fs1 = setEntry fs (withFileName path (file_name ++ ".tmp")) (.file "") :=
    fileCreate_ok fs fs1 _ hcr
  have hold : ∀ fsx : FsState,
      getEntry (setEntry fs1 (withFileName path (file_name ++ ".tmp"))
        (.file content)) path = getEntry fs path := by
    intro _
    rw [getEntry_setEntry_ne _ _ _ _ (fun hq => hne hq.symm), hfs1,
      getEntry_setEntry_ne _ _ _ _ (fun hq => hne hq.symm)]
  refine ⟨?_, ?_, ?_, ?_⟩
  · simp only [write_file_atomic, hfn, hcr, hre]
  · simp only [write_file_atomic, hfn, hcr, hre]
    cases hrm : env.removeFails with
    | true =>
      simp only [if_pos rfl]
      exact hold fs
    | false =>
      simp only [Bool.false_eq_true, if_false]
      rw [getEntry_removeEntry_ne _ _ _ (fun hq => hne hq.symm)]
      exact hold fs
  · intro hrm
    simp only [write_file_atomic, hfn, hcr, hre, hrm, Bool.false_eq_true, if_false]
    exact getEntry_removeEntry_self _ _
  · intro env'
    cases hre' : env'.renameErr with
    | none =>
      right
      simp only [write_file_atomic, hfn, hcr, hre']
      exact getEntry_setEntry_self _ _ _
    | some e' =>
      left
      simp only [write_file_atomic, hfn, hcr, hre']
      cases hrm : env'.removeFails with
      | true =>
        simp only [if_pos rfl]
        exact hold fs
      | false =>
        simp only [Bool.false_eq_true, if_false]
        rw [getEntry_removeEntry_ne _ _ _ (fun hq => hne hq.symm)]
        exact hold fs

theorem write_file_atomic_rename_fails_witness :
    (write_file_atomic ⟨some (.other "disk full"), false⟩ opFs
        ["ws", "a.txt"] "new").1 = .error (.IoError "disk full") ∧
      getEntry (write_file_atomic ⟨some (.other "disk full"), false⟩ opFs
        ["ws", "a.txt"] "new").2 ["ws", "a.txt"] =
        getEntry opFs ["ws", "a.txt"] ∧
      (false = false →
        getEntry (write_file_atomic ⟨some (.other "disk full"), false⟩ opFs
          ["ws", "a.txt"] "new").2
          (withFileName ["ws", "a.txt"] ("a.txt" ++ ".tmp")) = none) ∧
      (∀ env' : IoEnv,
        getEntry (write_file_atomic env' opFs ["ws", "a.txt"] "new").2
            ["ws", "a.txt"] = getEntry opFs ["ws", "a.txt"] ∨
          getEntry (write_file_atomic env' opFs ["ws", "a.txt"] "new").2
            ["ws", "a.txt"] = some (.file "new")) :=
  write_file_atomic_rename_fails ⟨some (.other "disk full"), false⟩ opFs
    (setEntry opFs (withFileName ["ws", "a.txt"] ("a.txt" ++ ".tmp")) (.file ""))
    ["ws", "a.txt"] "new" "a.txt" (.other "disk full") rfl rfl rfl

/-- Scanning options of `src/fs/explorer.rs` (`ScanOptions`). -/
structure ScanOptions where
  include_hidden : Bool
  max_depth : Nat

/-- The file-tree node of `src/fs/types.rs` (`FileNode`): absolute path,
base name, kind flag, size (present iff file), best-effort modification
time (timestamps are abstracted to `none` in this model), and optionally
the loaded immediate children. -/
inductive FileNode where
  | mk (path : AbsPath) (name : String) (is_file : Bool) (size : Option Nat)
      (modified : Option Nat) (children : Option (List FileNode))

/-- The `path` field. -/
def FileNode.path : FileNode → AbsPath
  | .mk p _ _ _ _ _ => p

/-- The `name` field. -/
def FileNode.name : FileNode → String
  | .mk _ n _ _ _ _ => n

/-- The `is_file` field. -/
def FileNode.is_file : FileNode → Bool
  | .mk _ _ f _ _ _ => f

/-- The `size` field. -/
def FileNode.size : FileNode → Option Nat
  | .mk _ _ _ s _ _ => s

/-- The `children` field. -/
def FileNode.children : FileNode → Option (List FileNode)
  | .mk _ _ _ _ _ c => c

/-- `FileNode::new` from `src/fs/types.rs`: children start absent. -/
def FileNode.new (path : AbsPath) (name : String) (is_file : Bool)
    (size : Option Nat) (modified : Option Nat) : FileNode :=
  .mk path name is_file size modified none

/-- `FileNode::with_children` from `src/fs/types.rs`. -/
def FileNode.with_children (n : FileNode) (children : List FileNode) : FileNode :=
  match n with
  | .mk p nm f sz md _ => .mk p nm f sz md (some children)

/-- A name is hidden when it starts with a dot. -/
def isHiddenName (s : String) : Bool :=
  match s.toList with
  | '.' :: _ => true
  | _ => false

/-- The directory-walk enumeration of `jwalk::WalkDir` as used by
`scan_directory`: every tree entry strictly below `path`, within
`max_depth` levels, the hidden-name pruning applied at every level unless
hidden files are included.  The enumeration order (the tree order here)
is irrelevant: the scan sorts afterwards. -/
def walkEntries (fs : FsState) (path : AbsPath) (options : ScanOptions) :
    List (AbsPath × Entry) :=
  fs.filter (fun kv =>
    isPref path kv.1 && kv.1 != path &&
      kv.1.length ≤ path.length + options.max_depth &&
      (options.include_hidden ||
        (kv.1.drop path.length).all (fun s => !isHiddenName s)))

/-- The `FileNode` built for one walked entry in `scan_directory`: name
from the last component, size present only for files, timestamps
abstracted. -/
def entryNode (kv : AbsPath × Entry) : FileNode :=
  FileNode.new kv.1 (kv.1.getLastD "")
    (match kv.2 with | .file _ => true | .dir => false)
    (match kv.2 with | .file c => some c.length | .dir => none)
    none

/-- Rust `str::to_lowercase`, restricted to the ASCII case mapping. -/
def lowerStr (s : String) : String :=
  String.mk (s.toList.map Char.toLower)

/-- Lexicographic comparison of character lists, modelling Rust `String`
ordering (code-point order agrees with byte order for UTF-8). -/
def cmpChars : List Char → List Char → Ordering
  | [], [] => .eq
  | [], _ :: _ => .lt
  | _ :: _, [] => .gt
  | a :: as, b :: bs =>
    match compare a.toNat b.toNat with
    | .eq => cmpChars as bs
    | o => o

/-- Rust `String::cmp`. -/
def cmpStr (a b : String) : Ordering :=
  cmpChars a.toList b.toList

/-- The comparator of `scan_directory`: directories sort before files,
and within a kind the lowercased names compare lexicographically. -/
def nodeCmp (a b : FileNode) : Ordering :=
  match a.is_file, b.is_file with
  | false, true => .lt
  | true, false => .gt
  | _, _ => cmpStr (lowerStr a.name) (lowerStr b.name)

/-- The non-strict order induced by the comparator, as Rust `sort_by`
uses it. -/
def nodeLeP (a b : FileNode) : Prop :=
  (nodeCmp a b != .gt) = true

instance : DecidableRel nodeLeP :=
  fun a b => inferInstanceAs (Decidable ((nodeCmp a b != .gt) = true))

/-- If `a` compares greater than `b`, then `b` does not compare greater
than `a`. -/
theorem cmpChars_gt_asymm :
    ∀ a b : List Char, cmpChars a b = .gt → ¬cmpChars b a = .gt := by
  intro a
  induction a with
  | nil =>
    intro b h
    cases b with
    | nil => exact absurd h (by simp [cmpChars])
    | cons y ys => exact absurd h (by simp [cmpChars])
  | cons x xs ih =>
    intro b h
    cases b with
    | nil => simp [cmpChars]
    | cons y ys =>
      rcases Nat.lt_trichotomy x.toNat y.toNat with hlt | heq | hgt
      · rw [cmpChars, Nat.compare_eq_lt.mpr hlt] at h
        exact absurd h (by simp)
      · rw [cmpChars, Nat.compare_eq_eq.mpr heq] at h
        rw [cmpChars, Nat.compare_eq_eq.mpr heq.symm]
        exact ih ys h
      · rw [cmpChars, Nat.compare_eq_lt.mpr hgt]
        simp

/-- Transitivity of the non-strict lexicographic order. -/
theorem cmpChars_le_trans :
    ∀ a b c : List Char, ¬cmpChars a b = .gt → ¬cmpChars b c = .gt →
      ¬cmpChars a c = .gt := by
  intro a
  induction a with
  | nil =>
    intro b c _ _
    cases c with
    | nil => simp [cmpChars]
    | cons z zs => simp [cmpChars]
  | cons x xs ih =>
    intro b c hab hbc
    cases b with
    | nil => exact absurd (by simp [cmpChars]) hab
    | cons y ys =>
      cases c with
      | nil => exact absurd (by simp [cmpChars]) hbc
      | cons z zs =>
        rcases Nat.lt_trichotomy x.toNat y.toNat with hxy | hxy | hxy
        · rcases Nat.lt_trichotomy y.toNat z.toNat with hyz | hyz | hyz
          · rw [cmpChars, Nat.compare_eq_lt.mpr (Nat.lt_trans hxy hyz)]; simp
          · rw [cmpChars, Nat.compare_eq_lt.mpr (hyz ▸ hxy)]; simp
          · rw [cmpChars, Nat.compare_eq_gt.mpr hyz] at hbc
            exact absurd rfl hbc
        · rcases Nat.lt_trichotomy y.toNat z.toNat with hyz | hyz | hyz
          · rw [cmpChars, Nat.compare_eq_lt.mpr (hxy ▸ hyz)]; simp
          · rw [cmpChars, Nat.compare_eq_eq.mpr (hxy.trans hyz)]
            rw [cmpChars, Nat.compare_eq_eq.mpr hxy] at hab
            rw [cmpChars, Nat.compare_eq_eq.mpr hyz] at hbc
            exact ih ys zs hab hbc
          · rw [cmpChars, Nat.compare_eq_gt.mpr hyz] at hbc
            exact absurd rfl hbc
        · rw [cmpChars, Nat.compare_eq_gt.mpr hxy] at hab
          exact absurd rfl hab

/-- Bridge between the boolean and propositional forms of "not greater". -/
theorem bne_gt_iff (o : Ordering) : (o != .gt) = true ↔ ¬o = .gt := by
  cases o <;> decide

instance : IsTotal FileNode nodeLeP := by
  constructor
  intro a b
  unfold nodeLeP nodeCmp
  cases haf : a.is_file <;> cases hbf : b.is_file
  · by_cases h : cmpStr (lowerStr a.name) (lowerStr b.name) = .gt
    · right
      rw [bne_gt_iff]
      exact cmpChars_gt_asymm _ _ h
    · left
      rw [bne_gt_iff]
      exact h
  · left; exact rfl
  · right; exact rfl
  · by_cases h : cmpStr (lowerStr a.name) (lowerStr b.name) = .gt
    · right
      rw [bne_gt_iff]
      exact cmpChars_gt_asymm _ _ h
    · left
      rw [bne_gt_iff]
      exact h

instance : IsTrans FileNode nodeLeP := by
  constructor
  intro a b c hab hbc
  unfold nodeLeP nodeCmp at hab hbc ⊢
  cases haf : a.is_file <;> cases hbf : b.is_file <;> cases hcf : c.is_file <;>
    rw [haf, hbf] at hab <;> rw [hbf, hcf] at hbc
  · rw [bne_gt_iff]
    exact cmpChars_le_trans _ _ _ ((bne_gt_iff _).mp hab) ((bne_gt_iff _).mp hbc)
  · exact rfl
  · exact absurd (show (Ordering.gt != Ordering.gt) = true from hbc) (by decide)
  · exact rfl
  · exact absurd (show (Ordering.gt != Ordering.gt) = true from hab) (by decide)
  · exact absurd (show (Ordering.gt != Ordering.gt) = true from hab) (by decide)
  · exact absurd (show (Ordering.gt != Ordering.gt) = true from hbc) (by decide)
  · rw [bne_gt_iff]
    exact cmpChars_le_trans _ _ _ ((bne_gt_iff _).mp hab) ((bne_gt_iff _).mp hbc)

/-- Shallow embedding of `scan_directory` from `src/fs/explorer.rs`: fail
unless the path is a directory, enumerate the tree entries to the
requested depth, build their nodes, and sort with the two-tier
comparator.  Rust `sort_by` is a stable sort and the output of a stable
sort is uniquely determined by comparator and input, so insertion sort is
used as its model. -/
def scan_directory (fs : FsState) (path : AbsPath) (options : ScanOptions) :
    Except AppError (List FileNode) :=
  match getEntry fs path with
  | some .dir =>
    .ok (List.insertionSort nodeLeP ((walkEntries fs path options).map entryNode))
  | _ => .error (.InvalidPath "is not a directory")

/-- Shallow embedding of `read_directory_lazy` from `src/fs/explorer.rs`:
take the directory's metadata, scan its immediate children (depth 1),
and return the directory node with those children attached. -/
def read_directory_lazy (fs : FsState) (path : AbsPath)
    (include_hidden : Bool) : Except AppError FileNode :=
  match getEntry fs path with
  | none => .error (.FileNotFound "No such file or directory")
  | some (.file _) => .error (.InvalidPath "is not a directory")
  | some .dir =>
    match scan_directory fs path ⟨include_hidden, 1⟩ with
    | .error e => .error e
    | .ok children =>
      .ok ((FileNode.new path
        (match fileName path with | some n => n | none => "")
        false none none).with_children children)

/-- The paginated view of `src/fs/types.rs` (`DirectoryPage`). -/
structure DirectoryPage where
  nodes : List FileNode
  total_count : Nat
  has_more : Bool

/-- Shallow embedding of `get_directory_page` from `src/fs/explorer.rs`:
scan fully at depth 1, then slice `[offset, min (offset+limit) total)`
out of the sorted result (empty when the offset is past the end), with
`has_more` set when the slice stops before the end. -/
def get_directory_page (fs : FsState) (path : AbsPath) (offset limit : Nat)
    (include_hidden : Bool) : Except AppError DirectoryPage :=
  match scan_directory fs path ⟨include_hidden, 1⟩ with
  | .error e => .error e
  | .ok all_entries =>
    let total_count := all_entries.length
    let stop := min (offset + limit) total_count
    let page_entries :=
      if offset < total_count then (all_entries.drop offset).take (stop - offset)
      else []
    let has_more := decide (stop < total_count)
    .ok ⟨page_entries, total_count, has_more⟩

/-- The spec-side two-tier order on nodes: directories before files, and
within the same kind the lowercased names in lexicographic order. -/
def twoTier (a b : FileNode) : Prop :=
  (a.is_file = false ∧ b.is_file = true) ∨
    (a.is_file = b.is_file ∧ ¬cmpStr (lowerStr a.name) (lowerStr b.name) = .gt)

/-- The comparator order implies the spec-side two-tier order. -/
theorem nodeLeP_twoTier (a b : FileNode) (h : nodeLeP a b) : twoTier a b := by
  unfold nodeLeP nodeCmp at h
  unfold twoTier
  cases haf : a.is_file <;> cases hbf : b.is_file <;> rw [haf, hbf] at h
  · exact Or.inr ⟨rfl, (bne_gt_iff _).mp h⟩
  · exact Or.inl ⟨rfl, rfl⟩
  · exact absurd (show (Ordering.gt != Ordering.gt) = true from h) (by decide)
  · exact Or.inr ⟨rfl, (bne_gt_iff _).mp h⟩

/-- A concrete directory `/d` holding `b.txt`, `A.txt` and `folder`. -/
def sortFs : FsState :=
  [([], .dir), (["d"], .dir), (["d", "b.txt"], .file "x"),
    (["d", "A.txt"], .file "y"), (["d", "folder"], .dir)]

/-- C6: every successful `scan_directory` result is sorted by the
two-tier order — all directories precede all files and each group is in
case-insensitive lexicographic order of names — and the directory
`{b.txt, A.txt, folder}` scans to `[folder, A.txt, b.txt]`. -/
theorem scan_directory_sorted :
    (∀ (fs : FsState) (path : AbsPath) (options : ScanOptions)
        (l : List FileNode), scan_directory fs path options = .ok l →
        l.Pairwise twoTier) ∧
      (∃ l, scan_directory sortFs ["d"] ⟨false, 1⟩ = .ok l ∧
        l.map FileNode.name = ["folder", "A.txt", "b.txt"]) := by
  constructor
  · intro fs path options l h
    unfold scan_directory at h
    split at h
    · have hl : l = List.insertionSort nodeLeP
          ((walkEntries fs path options).map entryNode) := by
        simpa using h.symm
      rw [hl]
      exact (List.sorted_insertionSort nodeLeP _).imp
        (fun hr => nodeLeP_twoTier _ _ hr)
    · exact absurd h (by simp)
  · exact ⟨_, rfl, rfl⟩

theorem scan_directory_sorted_witness :
    (List.insertionSort nodeLeP
        ((walkEntries sortFs ["d"] ⟨false, 1⟩).map entryNode)).Pairwise twoTier :=
  scan_directory_sorted.1 sortFs ["d"] ⟨false, 1⟩ _ rfl

/-- C7: a successful `get_directory_page` returns exactly the slice
`[offset, offset+limit)` of the full sorted depth-1 listing, reports the
full listing's length as `total_count`, sets `has_more` iff
`offset + len(nodes) < total_count`, and an offset at or past the end
yields an empty page with `has_more = false`. -/
theorem get_directory_page_spec (fs : FsState) (path : AbsPath)
    (offset limit : Nat) (include_hidden : Bool) (page : DirectoryPage)
    (h : get_directory_page fs path offset limit include_hidden = .ok page) :
    ∃ all, scan_directory fs path ⟨include_hidden, 1⟩ = .ok all ∧
      page.nodes = (all.drop offset).take limit ∧
      page.total_count = all.length ∧
      (page.has_more = true ↔ offset + page.nodes.length < page.total_count) ∧
      (all.length ≤ offset → page.nodes = [] ∧ page.has_more = false) := by
  unfold get_directory_page at h
  cases hscan : scan_directory fs path ⟨include_hidden, 1⟩ with
  | error e => rw [hscan] at h; exact absurd h (by simp)
  | ok all =>
    rw [hscan] at h
    have hp : page = ⟨(if offset < all.length then
          (all.drop offset).take (min (offset + limit) all.length - offset)
        else []), all.length, decide (min (offset + limit) all.length < all.length)⟩ := by
      simpa using h.symm
    refine ⟨all, rfl, ?_, ?_, ?_, ?_⟩
    · rw [hp]
      show (if offset < all.length then
          (all.drop offset).take (min (offset + limit) all.length - offset)
        else []) = (all.drop offset).take limit
      by_cases ho : offset < all.length
      · rw [if_pos ho]
        by_cases hol : offset + limit ≤ all.length
        · have harg : min (offset + limit) all.length - offset = limit := by omega
          rw [harg]
        · have h1 : (all.drop offset).length ≤
              min (offset + limit) all.length - offset := by
            rw [List.length_drop]; omega
          have h2 : (all.drop offset).length ≤ limit := by
            rw [List.length_drop]; omega
          rw [List.take_of_length_le h1, List.take_of_length_le h2]
      · rw [if_neg ho, List.drop_eq_nil_of_le (by omega), List.take_nil]
    · rw [hp]
    · rw [hp]
      show decide (min (offset + limit) all.length < all.length) = true ↔
        offset + (if offset < all.length then
          (all.drop offset).take (min (offset + limit) all.length - offset)
        else []).length < all.length
      rw [decide_eq_true_iff]
      by_cases ho : offset < all.length
      · rw [if_pos ho]
        rw [List.length_take, List.length_drop]
        omega
      · rw [if_neg ho]
        simp only [List.length_nil]
        omega
    · intro hoff
      rw [hp]
      constructor
      · show (if offset < all.length then
            (all.drop offset).take (min (offset + limit) all.length - offset)
          else []) = []
        rw [if_neg (by omega)]
      · show decide (min (offset + limit) all.length < all.length) = false
        rw [decide_eq_false_iff_not]
        omega

/-- A concrete directory `/p` with eight files `a` … `h`. -/
def pagFs : FsState :=
  [([], .dir), (["p"], .dir),
    (["p", "a"], .file ""), (["p", "b"], .file ""), (["p", "c"], .file ""),
    (["p", "d"], .file ""), (["p", "e"], .file ""), (["p", "f"], .file ""),
    (["p", "g"], .file ""), (["p", "h"], .file "")]

/-- The page `getDirPage(offset 6, limit 3)` cuts out of `/p`. -/
def pagPage : DirectoryPage :=
  ⟨[FileNode.new ["p", "g"] "g" true (some 0) none,
    FileNode.new ["p", "h"] "h" true (some 0) none], 8, false⟩

theorem get_directory_page_spec_witness :
    ∃ all, scan_directory pagFs ["p"] ⟨false, 1⟩ = .ok all ∧
      pagPage.nodes = (all.drop 6).take 3 ∧
      pagPage.total_count = all.length ∧
      (pagPage.has_more = true ↔ 6 + pagPage.nodes.length < pagPage.total_count) ∧
      (all.length ≤ 6 → pagPage.nodes = [] ∧ pagPage.has_more = false) :=
  get_directory_page_spec pagFs ["p"] 6 3 false pagPage rfl

/-- Component-prefix characterised by list append. -/
theorem isPref_iff_exists (a : List String) :
    ∀ b, isPref a b = true ↔ ∃ t, b = a ++ t := by
  induction a with
  | nil =>
    intro b
    simp [isPref]
  | cons x xs ih =>
    intro b
    cases b with
    | nil =>
      simp [isPref]
    | cons y ys =>
      simp only [isPref, Bool.and_eq_true, beq_iff_eq, ih, List.cons_append]
      constructor
      · rintro ⟨hxy, t, rfl⟩
        exact ⟨t, by rw [hxy]⟩
      · rintro ⟨t, ht⟩
        obtain ⟨h1, h2⟩ := List.cons.injEq .. ▸ ht
        exact ⟨h1.symm, t, h2⟩

/-- The spec-side list of a directory's immediate children: exactly the
tree entries one level below `path`, with hidden names filtered out
unless requested. -/
def immediateEntries (fs : FsState) (path : AbsPath) (include_hidden : Bool) :
    List (AbsPath × Entry) :=
  fs.filter (fun kv =>
    decide (kv.1.length = path.length + 1) && isPref path kv.1 &&
      (include_hidden || !isHiddenName (kv.1.getLastD "")))

/-- At depth 1 the walk enumerates exactly the immediate children. -/
theorem walkEntries_depth1 (fs : FsState) (path : AbsPath)
    (include_hidden : Bool) :
    walkEntries fs path ⟨include_hidden, 1⟩ =
      immediateEntries fs path include_hidden := by
  unfold walkEntries immediateEntries
  apply List.filter_congr
  intro kv _
  by_cases hp : isPref path kv.1 = true
  · obtain ⟨t, ht⟩ := (isPref_iff_exists path kv.1).mp hp
    cases t with
    | nil =>
      rw [ht]
      simp
    | cons x xs =>
      cases xs with
      | nil =>
        rw [ht] at hp ⊢
        have hne : (path ++ [x]) ≠ path := by
          intro hcontra
          have := congrArg List.length hcontra
          simp at this
        have hlen : (path ++ [x]).length = path.length + 1 := by simp
        simp [hp, hne, hlen, List.drop_left, List.getLastD_concat]
      | cons y ys =>
        rw [ht]
        have h1 : ¬((path ++ x :: y :: ys).length ≤ path.length + 1) := by
          simp only [List.length_append, List.length_cons]
          omega
        have h2 : ¬((path ++ x :: y :: ys).length = path.length + 1) := by
          simp only [List.length_append, List.length_cons]
          omega
        simp [h1, h2]
  · have hp' : isPref path kv.1 = false := by simpa using hp
    simp [hp']

/-- C8: a successful lazy directory read returns the directory node with
`children` populated by exactly the directory's immediate entries (up to
the scan's sort order), and every returned child — including child
directories — has an absent `children` field: grandchildren are never
loaded. -/
theorem read_directory_lazy_children (fs : FsState) (path : AbsPath)
    (include_hidden : Bool) (node : FileNode)
    (h : read_directory_lazy fs path include_hidden = .ok node) :
    ∃ cs, node.children = some cs ∧
      cs.Perm ((immediateEntries fs path include_hidden).map entryNode) ∧
      ∀ c ∈ cs, c.children = none := by
  unfold read_directory_lazy at h
  split at h
  · exact absurd h (by simp)
  · exact absurd h (by simp)
  case _ heq =>
    cases hscan : scan_directory fs path ⟨include_hidden, 1⟩ with
    | error e =>
      unfold scan_directory at hscan
      rw [heq] at hscan
      exact absurd hscan (by simp)
    | ok children =>
      rw [hscan] at h
      have hnode : node = (FileNode.new path
          (match fileName path with | some n => n | none => "")
          false none none).with_children children := by
        simpa using h.symm
      have hch : children = List.insertionSort nodeLeP
          ((walkEntries fs path ⟨include_hidden, 1⟩).map entryNode) := by
        unfold scan_directory at hscan
        rw [heq] at hscan
        simpa using hscan.symm
      refine ⟨children, by rw [hnode]; rfl, ?_, ?_⟩
      · rw [hch, ← walkEntries_depth1 fs path include_hidden]
        exact List.perm_insertionSort nodeLeP _
      · intro c hc
        have hmem : c ∈ (walkEntries fs path ⟨include_hidden, 1⟩).map entryNode := by
          rw [hch] at hc
          exact (List.perm_insertionSort nodeLeP _).mem_iff.mp hc
        obtain ⟨kv, _, hkv⟩ := List.mem_map.mp hmem
        rw [← hkv]
        rfl

/-- A directory `/n` containing a subdirectory `sub` that itself
contains a file: the lazy read of `/n` must not load `deep.txt`. -/
def lazFs : FsState :=
  [([], .dir), (["n"], .dir), (["n", "sub"], .dir),
    (["n", "sub", "deep.txt"], .file "deep content")]

/-- The node the lazy read of `/n` returns: the child `sub` appears with
no children of its own. -/
def lazNode : FileNode :=
  (FileNode.new ["n"] "n" false none none).with_children
    [FileNode.new ["n", "sub"] "sub" false none none]

theorem read_directory_lazy_children_witness :
    ∃ cs, lazNode.children = some cs ∧
      cs.Perm ((immediateEntries lazFs ["n"] false).map entryNode) ∧
      ∀ c ∈ cs, c.children = none :=
  read_directory_lazy_children lazFs ["n"] false lazNode rfl

/-- The application state visible to commands: the current workspace, as
`AppState::get_workspace` exposes it. -/
structure AppStateM where
  workspace_dir : Option AbsPath

/-- The error every command returns when no workspace is open. -/
def noWorkspaceError : AppError :=
  .InvalidPath "No workspace is open. Please select a folder first."

/-- Shallow embedding of `validate_path_with_state` from
`src/fs/validation.rs`: absence of an open workspace is an error, else
validate the target against the workspace root. -/
def validate_path_with_state (v : Fsys) (state : AppStateM) (target : String) :
    Except AppError AbsPath :=
  match state.workspace_dir with
  | none => .error noWorkspaceError
  | some workspace => validate_path v workspace target

/-- Shallow embedding of the `read_file` command from
`src/commands/file_ops.rs`: validate against the workspace, then read. -/
def read_file (v : Fsys) (fs : FsState) (state : AppStateM) (path : String) :
    Except AppError String :=
  match validate_path_with_state v state path with
  | .error e => .error e
  | .ok p => read_file_content fs p

/-- Shallow embedding of the `write_file` command from
`src/commands/file_ops.rs`: validate, then write atomically. -/
def write_file (v : Fsys) (env : IoEnv) (fs : FsState) (state : AppStateM)
    (path content : String) : Except AppError Unit × FsState :=
  match validate_path_with_state v state path with
  | .error e => (.error e, fs)
  | .ok p => write_file_atomic env fs p content

/-- Modelled from the spec: the `create_file_command` wrapper is
registered in `lib.rs` but its definition is not among the sources; per
the operation surface, it first routes its path through the Path
Validator with the current workspace as root and then performs the
create. -/
def create_file_command (v : Fsys) (fs : FsState) (state : AppStateM)
    (path : String) : Except AppError FsState :=
  match validate_path_with_state v state path with
  | .error e => .error e
  | .ok p => create_file fs p

/-- Shallow embedding of the `create_folder_command` from
`src/commands/dir_ops.rs`. -/
def create_folder_command (v : Fsys) (fs : FsState) (state : AppStateM)
    (path : String) : Except AppError FsState :=
  match validate_path_with_state v state path with
  | .error e => .error e
  | .ok p => create_folder fs p

/-- Shallow embedding of the `rename_path_command` from
`src/commands/file_ops.rs`: both paths are validated. -/
def rename_path_command (v : Fsys) (fs : FsState) (state : AppStateM)
    (old_path new_path : String) : Except AppError FsState :=
  match validate_path_with_state v state old_path with
  | .error e => .error e
  | .ok po =>
    match validate_path_with_state v state new_path with
    | .error e => .error e
    | .ok pn => rename_path fs po pn

/-- Shallow embedding of the `delete_path_command` from
`src/commands/file_ops.rs`. -/
def delete_path_command (v : Fsys) (fs : FsState) (state : AppStateM)
    (path : String) : Except AppError FsState :=
  match validate_path_with_state v state path with
  | .error e => .error e
  | .ok p => delete_path fs p

/-- Shallow embedding of the `read_directory` command from
`src/commands/dir_ops.rs`: an empty or "." path is taken as the
workspace root directly (workspace absence still errors); any other path
goes through the validator. -/
def read_directory (v : Fsys) (fs : FsState) (state : AppStateM)
    (path : String) (include_hidden : Bool) : Except AppError FileNode :=
  if path == "" || path == "." then
    match state.workspace_dir with
    | none => .error noWorkspaceError
    | some ws => read_directory_lazy fs ws include_hidden
  else
    match validate_path_with_state v state path with
    | .error e => .error e
    | .ok p => read_directory_lazy fs p include_hidden

/-- Shallow embedding of the `get_directory_page` command from
`src/commands/dir_ops.rs`, with the same empty/"." fast path. -/
def get_directory_page_command (v : Fsys) (fs : FsState) (state : AppStateM)
    (path : String) (offset limit : Nat) (include_hidden : Bool) :
    Except AppError DirectoryPage :=
  if path == "" || path == "." then
    match state.workspace_dir with
    | none => .error noWorkspaceError
    | some ws => get_directory_page fs ws offset limit include_hidden
  else
    match validate_path_with_state v state path with
    | .error e => .error e
    | .ok p => get_directory_page fs p offset limit include_hidden

/-- The routing the claim asserts for the lazy read, following the
spec's words: the path argument is always routed through the Path
Validator first. -/
def read_directory_routed (v : Fsys) (fs : FsState) (state : AppStateM)
    (path : String) (include_hidden : Bool) : Except AppError FileNode :=
  match validate_path_with_state v state path with
  | .error e => .error e
  | .ok p => read_directory_lazy fs p include_hidden

/-- C5 counterexample: with a workspace that no longer resolves, the
command `read_directory` on "." bypasses the validator — it returns the
scanner's not-found error where validator-first routing would return the
validator's invalid-path error — so not every path-taking operation
routes its path argument through the Path Validator. -/
theorem read_directory_bypasses_validator :
    read_directory ⟨fun _ => none⟩ [] ⟨some ["ws"]⟩ "." false =
        .error (.FileNotFound "No such file or directory") ∧
      read_directory_routed ⟨fun _ => none⟩ [] ⟨some ["ws"]⟩ "." false =
        .error (.InvalidPath "Invalid base directory") ∧
      AppError.FileNotFound "No such file or directory" ≠
        AppError.InvalidPath "Invalid base directory" :=
  ⟨rfl, rfl, by decide⟩

/-- C5 (amended): absence of an open workspace is an error for every
path-taking operation; and every operation first routes its path through
the Path Validator — a validator failure is the command's failure, with
the same error — except that `readDirLazy` and `getDirPage` treat the
paths "" and "." as the workspace root directly, without validation (see
the counterexample). -/
theorem commands_validate_first_amended :
    (∀ (v : Fsys) (env : IoEnv) (fs : FsState) (p q content : String)
        (off lim : Nat) (ih : Bool),
        read_file v fs ⟨none⟩ p = .error noWorkspaceError ∧
        (write_file v env fs ⟨none⟩ p content).1 = .error noWorkspaceError ∧
        create_file_command v fs ⟨none⟩ p = .error noWorkspaceError ∧
        create_folder_command v fs ⟨none⟩ p = .error noWorkspaceError ∧
        rename_path_command v fs ⟨none⟩ p q = .error noWorkspaceError ∧
        delete_path_command v fs ⟨none⟩ p = .error noWorkspaceError ∧
        read_directory v fs ⟨none⟩ p ih = .error noWorkspaceError ∧
        get_directory_page_command v fs ⟨none⟩ p off lim ih =
          .error noWorkspaceError) ∧
    (∀ (v : Fsys) (env : IoEnv) (fs : FsState) (st : AppStateM)
        (p q content : String) (off lim : Nat) (ih : Bool) (e : AppError),
        validate_path_with_state v st p = .error e →
        read_file v fs st p = .error e ∧
        (write_file v env fs st p content).1 = .error e ∧
        create_file_command v fs st p = .error e ∧
        create_folder_command v fs st p = .error e ∧
        rename_path_command v fs st p q = .error e ∧
        delete_path_command v fs st p = .error e ∧
        (¬p = "" → ¬p = "." →
          read_directory v fs st p ih = .error e ∧
          get_directory_page_command v fs st p off lim ih = .error e)) := by
  constructor
  · intro v env fs p q content off lim ih
    refine ⟨rfl, rfl, rfl, rfl, rfl, rfl, ?_, ?_⟩
    · unfold read_directory
      split
      · rfl
      · rfl
    · unfold get_directory_page_command
      split
      · rfl
      · rfl
  · intro v env fs st p q content off lim ih e h
    refine ⟨?_, ?_, ?_, ?_, ?_, ?_, ?_⟩
    · unfold read_file
      rw [h]
    · unfold write_file
      rw [h]
    · unfold create_file_command
      rw [h]
    · unfold create_folder_command
      rw [h]
    · unfold rename_path_command
      rw [h]
    · unfold delete_path_command
      rw [h]
    · intro hne1 hne2
      have hc : (p == "" || p == ".") = false := by
        simp [hne1, hne2]
      constructor
      · unfold read_directory
        rw [hc, if_neg Bool.false_ne_true, h]
      · unfold get_directory_page_command
        rw [hc, if_neg Bool.false_ne_true, h]

theorem commands_validate_first_amended_witness :
    (read_file ⟨fun _ => none⟩ [] ⟨none⟩ "x" = .error noWorkspaceError ∧
      (write_file ⟨fun _ => none⟩ ⟨none, false⟩ [] ⟨none⟩ "x" "c").1 =
        .error noWorkspaceError ∧
      create_file_command ⟨fun _ => none⟩ [] ⟨none⟩ "x" =
        .error noWorkspaceError ∧
      create_folder_command ⟨fun _ => none⟩ [] ⟨none⟩ "x" =
        .error noWorkspaceError ∧
      rename_path_command ⟨fun _ => none⟩ [] ⟨none⟩ "x" "y" =
        .error noWorkspaceError ∧
      delete_path_command ⟨fun _ => none⟩ [] ⟨none⟩ "x" =
        .error noWorkspaceError ∧
      read_directory ⟨fun _ => none⟩ [] ⟨none⟩ "x" false =
        .error noWorkspaceError ∧
      get_directory_page_command ⟨fun _ => none⟩ [] ⟨none⟩ "x" 0 1 false =
        .error noWorkspaceError) ∧
    (read_file ⟨fun _ => none⟩ [] ⟨some ["ws"]⟩ "x" =
        .error (.InvalidPath "Invalid base directory") ∧
      (write_file ⟨fun _ => none⟩ ⟨none, false⟩ [] ⟨some ["ws"]⟩ "x" "c").1 =
        .error (.InvalidPath "Invalid base directory") ∧
      create_file_command ⟨fun _ => none⟩ [] ⟨some ["ws"]⟩ "x" =
        .error (.InvalidPath "Invalid base directory") ∧
      create_folder_command ⟨fun _ => none⟩ [] ⟨some ["ws"]⟩ "x" =
        .error (.InvalidPath "Invalid base directory") ∧
      rename_path_command ⟨fun _ => none⟩ [] ⟨some ["ws"]⟩ "x" "y" =
        .error (.InvalidPath "Invalid base directory") ∧
      delete_path_command ⟨fun _ => none⟩ [] ⟨some ["ws"]⟩ "x" =
        .error (.InvalidPath "Invalid base directory") ∧
      (¬"x" = "" → ¬"x" = "." →
        read_directory ⟨fun _ => none⟩ [] ⟨some ["ws"]⟩ "x" false =
          .error (.InvalidPath "Invalid base directory") ∧
        get_directory_page_command ⟨fun _ => none⟩ [] ⟨some ["ws"]⟩ "x" 0 1 false =
          .error (.InvalidPath "Invalid base directory"))) :=
  ⟨commands_validate_first_amended.1 ⟨fun _ => none⟩ ⟨none, false⟩ [] "x" "y" "c"
      0 1 false,
    commands_validate_first_amended.2 ⟨fun _ => none⟩ ⟨none, false⟩ [] ⟨some ["ws"]⟩
      "x" "y" "c" 0 1 false (.InvalidPath "Invalid base directory") rfl⟩

/-- The persisted configuration of `src/state/mod.rs` (`AppConfig`). -/
structure AppConfig where
  workspace_dir : Option AbsPath
  last_dialog_dir : Option AbsPath
  deriving DecidableEq

/-- `Default for AppConfig`: both fields empty. -/
def AppConfig.defaultConfig : AppConfig := ⟨none, none⟩

/-- The on-disk world a `load()` call sees: the config file's content if
the file exists, and whether the read itself fails. -/
structure ConfigWorld where
  file : Option String
  readFails : Bool

/-- Shallow embedding of `AppState::load` from `src/state/mod.rs`,
parameterized by the serde parser.  A missing file returns Ok without
touching the in-memory config; a read failure or a parse failure is an
`IoError`; only after a successful read **and** parse is the shared
config overwritten.  Returns the call's result together with the
in-memory config it leaves. -/
def load (parse : String → Option AppConfig) (world : ConfigWorld)
    (config : AppConfig) : Except AppError Unit × AppConfig :=
  match world.file with
  | none => (.ok (), config)
  | some content =>
    if world.readFails then
      (.error (.IoError "Failed to read config file"), config)
    else
      match parse content with
      | none => (.error (.IoError "Failed to parse config file"), config)
      | some loaded_config => (.ok (), loaded_config)

/-- C9: `load()` succeeds and leaves the in-memory configuration
untouched (hence at its defaults on a first run) when the config file is
absent, and returns an error — never a silent fall-back to defaults —
when the file exists but cannot be read or parsed. -/
theorem load_first_run_and_malformed (parse : String → Option AppConfig)
    (world : ConfigWorld) (config : AppConfig) :
    (world.file = none → load parse world config = (.ok (), config)) ∧
      (∀ content, world.file = some content →
        (world.readFails = true →
          load parse world config =
            (.error (.IoError "Failed to read config file"), config)) ∧
        (world.readFails = false → parse content = none →
          load parse world config =
            (.error (.IoError "Failed to parse config file"), config))) := by
  refine ⟨?_, ?_⟩
  · intro h
    unfold load
    rw [h]
  · intro content hc
    refine ⟨?_, ?_⟩
    · intro hr
      unfold load
      rw [hc]
      simp [hr]
    · intro hr hp
      unfold load
      rw [hc]
      simp [hr, hp]

theorem load_first_run_and_malformed_witness :
    (ConfigWorld.mk none false).file = none ∧
      load (fun _ => some AppConfig.defaultConfig) ⟨none, false⟩
        AppConfig.defaultConfig = (.ok (), AppConfig.defaultConfig) ∧
      (ConfigWorld.mk (some "garbage") false).file = some "garbage" ∧
      load (fun _ => none) ⟨some "garbage", false⟩ AppConfig.defaultConfig =
        (.error (.IoError "Failed to parse config file"),
          AppConfig.defaultConfig) :=
  ⟨rfl,
    (load_first_run_and_malformed (fun _ => some AppConfig.defaultConfig)
      ⟨none, false⟩ AppConfig.defaultConfig).1 rfl,
    rfl,
    ((load_first_run_and_malformed (fun _ => none) ⟨some "garbage", false⟩
      AppConfig.defaultConfig).2 "garbage" rfl).2 rfl rfl⟩

/-- C10: whenever `load()` fails — unreadable or malformed config file —
the in-memory configuration is exactly what it was before the call: the
shared config is overwritten only after the file has been fully read and
successfully parsed. -/
theorem load_error_preserves_config (parse : String → Option AppConfig)
    (world : ConfigWorld) (config : AppConfig) (e : AppError)
    (h : (load parse world config).1 = .error e) :
    (load parse world config).2 = config := by
  unfold load at h ⊢
  cases hf : world.file with
  | none => rfl
  | some content =>
    by_cases hr : world.readFails = true
    · simp [hr]
    · simp only [Bool.not_eq_true] at hr
      cases hp : parse content with
      | none => simp [hr, hp]
      | some cfg => simp [hf, hr, hp] at h

theorem load_error_preserves_config_witness :
    (load (fun _ => none) ⟨some "garbage", false⟩ AppConfig.defaultConfig).1 =
        .error (.IoError "Failed to parse config file") ∧
      (load (fun _ => none) ⟨some "garbage", false⟩ AppConfig.defaultConfig).2 =
        AppConfig.defaultConfig :=
  ⟨rfl,
    load_error_preserves_config (fun _ => none) ⟨some "garbage", false⟩
      AppConfig.defaultConfig (.IoError "Failed to parse config file") rfl⟩
